import Mathlib

/-!
Verification of the `deet` debugger core (src/proj1/deet/src): a shallow
embedding of `inferior.rs` and `debugger.rs` over a bytewise model of the
traced process's memory, with the operating system's responses to
`ptrace`/`waitpid` supplied by an explicit environment (oracle).
-/

set_option maxHeartbeats 1000000

namespace Deet

/-- The traced process's memory, one byte per address (little-endian words). -/
abbrev Mem := Nat → Nat

/-- A well-formed memory holds one byte per address. -/
def MemWF (m : Mem) : Prop := ∀ a, m a < 256

/-- `align_addr_to_word` (inferior.rs line 13):
`addr & (-(size_of::<u64>() as i64) as u64)`; on 64 bits the mask
`-8i64 as u64` is `0xFFFFFFFFFFFFFFF8`, i.e. `2^64 - 8`. -/
def align_addr_to_word (addr : Nat) : Nat := addr &&& (2 ^ 64 - 8)

/-- The byte at little-endian position `i` of a word. -/
def byteAt (w i : Nat) : Nat := (w >>> (8 * i)) &&& 0xff

/-- `ptrace::read`: the 64-bit little-endian word starting at byte address `a`. -/
def readWord (m : Mem) (a : Nat) : Nat :=
  m a + m (a + 1) * 256 + m (a + 2) * 65536 + m (a + 3) * 16777216 +
    m (a + 4) * 4294967296 + m (a + 5) * 1099511627776 +
    m (a + 6) * 281474976710656 + m (a + 7) * 72057594037927936

/-- `ptrace::write`: store the 64-bit word `w` at byte address `a`. -/
def writeWord (m : Mem) (a : Nat) (w : Nat) : Mem :=
  fun x => if a ≤ x ∧ x < a + 8 then byteAt w (x - a) else m x

/-- `Inferior::write_byte` (inferior.rs lines 139-152), acting on the traced
process's memory: align the address down to its word, read the word, extract
the displaced byte, mask it out, merge `val` in, write the word back.
Rust's `!x` on `u64` is modelled as `(2^64 - 1) ^^^ x`. -/
def write_byte (m : Mem) (addr : Nat) (val : Nat) : Nat × Mem :=
  let aligned_addr := align_addr_to_word addr
  let byte_offset := addr - aligned_addr
  let word := readWord m aligned_addr
  let orig_byte := (word >>> (8 * byte_offset)) &&& 0xff
  let masked_word := word &&& ((2 ^ 64 - 1) ^^^ (0xff <<< (8 * byte_offset)))
  let updated_word := masked_word ||| (val <<< (8 * byte_offset))
  (orig_byte, writeWord m aligned_addr updated_word)

/-! ### Signals, statuses and the wait decode (`Inferior::wait`) -/

/-- POSIX signals, as far as the debugger distinguishes them. -/
inductive Signal
  | SIGTRAP
  | SIGSEGV
  | SIGINT
  | SIGKILL
  | otherSig (n : Nat)
  deriving DecidableEq

/-- `Status` (inferior.rs lines 17-29). -/
inductive Status
  | Stopped (sig : Signal) (rip : Nat)
  | Exited (code : Int)
  | Signaled (sig : Signal)
  deriving DecidableEq

/-- Raw `waitpid` results (`nix::sys::wait::WaitStatus`). -/
inductive WaitStatus
  | exited (pid : Nat) (code : Int)
  | signaled (pid : Nat) (sig : Signal) (coreDumped : Bool)
  | stopped (pid : Nat) (sig : Signal)
  | ptraceEvent (pid : Nat) (sig : Signal) (ev : Int)
  | ptraceSyscall (pid : Nat)
  | continued (pid : Nat)
  | stillAlive
  deriving DecidableEq

/-- The result of a fallible debugger operation: Rust's `Ok`, `Err e` (a
`nix::Error`, modelled by its errno) or an abort of the whole process by a
failing `unwrap`/`expect` or an explicit abort arm. -/
inductive Res (α : Type)
  | ok (a : α)
  | err (e : Nat)
  | panic
  deriving DecidableEq

/-- The two registers the debugger uses. -/
structure Regs where
  rip : Nat
  rbp : Nat
  deriving DecidableEq

/-- The traced process: registers plus byte memory. -/
structure ProcState where
  regs : Regs
  mem : Mem

/-- `Inferior::wait` (inferior.rs lines 75-85): decode one raw `waitpid`
result. `raw` is the environment's response, `.error e` standing for a
failing `waitpid` (or a failing `ptrace` call around the resume). A
`Stopped` raw status reads the program counter of the state the process
stopped in (`ptrace::getregs`); any unclassified raw status hits the
`panic!`-arm of the match and aborts. -/
def waitDecode (st : ProcState) (raw : Except Nat WaitStatus) : Res Status :=
  match raw with
  | .error e => .err e
  | .ok (.exited _pid code) => .ok (.Exited code)
  | .ok (.signaled _pid sig _core) => .ok (.Signaled sig)
  | .ok (.stopped _pid sig) => .ok (.Stopped sig st.regs.rip)
  | .ok _ => .panic

/-- The raw statuses `Inferior::wait` classifies; on every other one it
aborts. -/
def classifiable : WaitStatus → Bool
  | .exited _ _ => true
  | .signaled _ _ _ => true
  | .stopped _ _ => true
  | _ => false

/-! ### `Inferior::cont` — the breakpoint step-over protocol -/

/-- The scheduler's behaviour at the two resume requests `Inferior::cont`
can issue. Issuing `ptrace::step` runs one instruction of the target
(`stepEffect`) and the following `waitpid` answers `stepWaitRaw`; likewise
`ptrace::cont` runs the target to its next event (`contEffect`,
`contWaitRaw`). An `.error` response stands for a failing `ptrace`/`waitpid`
call during that resume. -/
structure Env where
  stepEffect : ProcState → ProcState
  stepWaitRaw : Except Nat WaitStatus
  contEffect : ProcState → ProcState
  contWaitRaw : Except Nat WaitStatus

/-- `Inferior` (inferior.rs lines 40-44): the breakpoint table `bp_map`,
mapping a breakpoint address to the displaced original byte (the `child`
process handle lives in the environment). -/
structure Inferior where
  bp_map : Nat → Option Nat

/-- `HashMap::insert` on the breakpoint table. -/
def bpInsert (m : Nat → Option Nat) (k v : Nat) : Nat → Option Nat :=
  fun x => if x = k then some v else m x

/-- `rip - 1` on `u64`, wrapping. -/
def u64sub1 (x : Nat) : Nat := (x + (2 ^ 64 - 1)) % 2 ^ 64

/-- How the breakpoint block of `Inferior::cont` ends: fall through to the
final resume with the state it produced, or return early with the
single-step's outcome. -/
inductive StepOverOut
  | proceed (st : ProcState)
  | early (r : Res Status) (st : ProcState)

/-- The `if let Some(orig_byte) = self.bp_map.clone().get(&(rip - 1))` block
of `Inferior::cont` (inferior.rs lines 91-103): restore the original byte at
`rip - 1`, rewind the program counter (`setregs`), single-step, and decode
the step's wait. Only a `Stopped(SIGTRAP, _)` decode re-arms `0xCC` and
falls through; the `others => return others` arm returns every other
outcome (`Exited`, `Signaled`, a stop by another signal, an `Err`) as is,
and a panic inside `wait` propagates. -/
def contStepOver (env : Env) (inf : Inferior) (st : ProcState) : StepOverOut :=
  let rip := st.regs.rip
  match inf.bp_map (u64sub1 rip) with
  | some orig_byte =>
      let mem1 := (write_byte st.mem (u64sub1 rip) orig_byte).2
      let st2 : ProcState := { regs := { rip := u64sub1 rip, rbp := st.regs.rbp }, mem := mem1 }
      let st3 := env.stepEffect st2
      match waitDecode st3 env.stepWaitRaw with
      | .ok (.Stopped .SIGTRAP _addr) =>
          .proceed { st3 with mem := (write_byte st3.mem (u64sub1 rip) 0xcc).2 }
      | r => .early r st3
  | none => .proceed st

/-- The `ptrace::cont` + `self.wait(None)` tail of `Inferior::cont`. -/
def resumeRun (env : Env) (st : ProcState) : Res Status × ProcState :=
  (waitDecode (env.contEffect st) env.contWaitRaw, env.contEffect st)

/-- `Inferior::cont` (inferior.rs lines 88-105): the step-over block, then
the final resume. Returns the decoded status (or error/abort), the inferior
(with its `bp_map`) and the process state the call left behind. -/
def contFn (env : Env) (inf : Inferior) (st : ProcState) :
    Res Status × Inferior × ProcState :=
  match contStepOver env inf st with
  | .proceed st' => ((resumeRun env st').1, inf, (resumeRun env st').2)
  | .early r st' => (r, inf, st')

/-- The state `Inferior::cont` hands to `ptrace::step` during a step-over:
the original byte restored at the breakpoint address `A`, program counter
rewound to `A`, frame base untouched. -/
def stepEntry (st : ProcState) (A orig : Nat) : ProcState :=
  { regs := { rip := A, rbp := st.regs.rbp }, mem := (write_byte st.mem A orig).2 }

/-- The state after re-arming `0xCC` at `A` following the single-step. -/
def rearmed (st3 : ProcState) (A : Nat) : ProcState :=
  { st3 with mem := (write_byte st3.mem A 0xcc).2 }

/-- A concrete scheduler for examples: the stepped instruction changes
nothing, the step's wait reports a `SIGTRAP` stop, the final resume ends
with exit code 0. -/
def envTrapEx : Env :=
  { stepEffect := id, stepWaitRaw := .ok (.stopped 2 .SIGTRAP),
    contEffect := id, contWaitRaw := .ok (.exited 2 0) }

/-- A concrete inferior: one breakpoint at `0x2000`, original byte `0x77`. -/
def infEx : Inferior := { bp_map := fun x => if x = 0x2000 then some 0x77 else none }

/-- A concrete stopped process, program counter one past the breakpoint of
`infEx`, memory `0x77` everywhere. -/
def stEx : ProcState := { regs := { rip := 0x2001, rbp := 0 }, mem := fun _ => 0x77 }

/-! ### `Inferior::new` — spawning and installing pending breakpoints -/

/-- The breakpoint-installation loop of `Inferior::new` (inferior.rs lines
58-61): for each recorded address, patch `0xCC` in and record the displaced
byte in `bp_map`. -/
def installBreaks : List Nat → Inferior → Mem → Inferior × Mem
  | [], inf, mem => (inf, mem)
  | breakaddr :: rest, inf, mem =>
      let r := write_byte mem breakaddr 0xcc
      installBreaks rest { bp_map := bpInsert inf.bp_map breakaddr r.1 } r.2

/-- What `Inferior::new` (inferior.rs lines 49-66) ends in: `made` is
`Some(inferior)`, `fail` is `None`, `fatal` a propagated panic. -/
inductive NewResult
  | made (inf : Inferior) (st : ProcState)
  | fail
  | fatal

/-- `Inferior::new`: spawn (the environment says whether the spawn
succeeded), wait for the first post-exec status; only `Stopped(SIGTRAP, _)`
leads to installing the recorded breakpoints and `Some(inferior)`; a panic
inside `wait` propagates, every other first status gives `None`. -/
def inferiorNew (spawnOk : Bool) (firstWait : Except Nat WaitStatus)
    (st : ProcState) (breaks : List Nat) : NewResult :=
  if spawnOk then
    match waitDecode st firstWait with
    | .ok (.Stopped .SIGTRAP _) =>
        let r := installBreaks breaks { bp_map := fun _ => none } st.mem
        .made r.1 { st with mem := r.2 }
    | .panic => .fatal
    | _ => .fail
  else .fail

/-! ### `Inferior::print_backtrace` — the frame-pointer walk -/

/-- The debug-symbol lookups the core consumes (`DwarfData`, an external
collaborator). -/
structure DwarfData where
  get_function_from_addr : Nat → Option String
  get_line_from_addr : Nat → Option Nat
  get_addr_for_line : Nat → Option Nat
  get_addr_for_function : List Char → Option Nat

/-- A symbol resolver that knows nothing: every lookup fails. -/
def emptyDwarf : DwarfData :=
  { get_function_from_addr := fun _ => none
    get_line_from_addr := fun _ => none
    get_addr_for_line := fun _ => none
    get_addr_for_function := fun _ => none }

/-- One outcome of the backtrace loop: finished (`main` reached), aborted on
a failed symbol lookup (the `unwrap` of a `None`), or still running when the
unrolling fuel ran out. `frames` are the lines printed so far, innermost
first. -/
inductive BtOut
  | done (frames : List (String × Nat))
  | panicked (frames : List (String × Nat))
  | running (frames : List (String × Nat)) (rip : Nat) (rbp : Nat)
  deriving DecidableEq

/-- The `loop` of `Inferior::print_backtrace` (inferior.rs lines 118-127),
unrolled `fuel` times: resolve the program counter to a function and a line
(both `unwrap`s abort on a failed lookup), print the frame, stop once the
function is `main`, otherwise read the next return address from memory at
`rbp + 8` and the caller's frame base from memory at `rbp` and repeat. -/
def btLoop (dd : DwarfData) (mem : Mem) :
    Nat → Nat → Nat → List (String × Nat) → BtOut
  | 0, rip, rbp, acc => .running acc rip rbp
  | fuel + 1, rip, rbp, acc =>
      match dd.get_function_from_addr rip with
      | none => .panicked acc
      | some func =>
          match dd.get_line_from_addr rip with
          | none => .panicked acc
          | some line =>
              if func = "main" then .done (acc ++ [(func, line)])
              else btLoop dd mem fuel (readWord mem (rbp + 8)) (readWord mem rbp)
                  (acc ++ [(func, line)])

/-! ### `Debugger::run` — the session command loop -/

/-- A hexadecimal digit's value, or `none`. -/
def hexDigit (c : Char) : Option Nat :=
  if '0' ≤ c ∧ c ≤ '9' then some (c.toNat - '0'.toNat)
  else if 'a' ≤ c ∧ c ≤ 'f' then some (c.toNat - 'a'.toNat + 10)
  else if 'A' ≤ c ∧ c ≤ 'F' then some (c.toNat - 'A'.toNat + 10)
  else none

/-- A decimal digit's value, or `none`. -/
def decDigit (c : Char) : Option Nat :=
  if '0' ≤ c ∧ c ≤ '9' then some (c.toNat - '0'.toNat) else none

/-- Accumulate digit values; `none` at the first non-digit. -/
def digitsAux (dv : Char → Option Nat) (radix : Nat) :
    List Char → Nat → Option Nat
  | [], acc => some acc
  | c :: cs, acc =>
      match dv c with
      | some d => digitsAux dv radix cs (acc * radix + d)
      | none => none

/-- Rust's `from_str_radix`: an optional leading `+`, then at least one
digit, and the value must fit the integer type (`cap`). -/
def from_str_radix (dv : Char → Option Nat) (radix : Nat) (cap : Nat)
    (s : List Char) : Option Nat :=
  let body := match s with
    | '+' :: rest => rest
    | _ => s
  match body with
  | [] => none
  | cs =>
      match digitsAux dv radix cs 0 with
      | some v => if v < cap then some v else none
      | none => none

/-- `parse_address` (debugger.rs lines 7-14): strip a case-insensitive `0x`
prefix, then parse base 16 as `u64`. -/
def parse_address (addr : List Char) : Option Nat :=
  let addr_without_0x :=
    match addr.map Char.toLower with
    | '0' :: 'x' :: _ => addr.drop 2
    | _ => addr
  from_str_radix hexDigit 16 (2 ^ 64) addr_without_0x

/-- Address resolution of the `BreakPoint` arm of `Debugger::run`
(debugger.rs lines 126-155): a `*`-prefixed spec is a raw hex address;
otherwise a successful decimal parse commits to the line-number lookup
(even when that lookup fails); otherwise the spec is a function name. -/
def resolveBreakSpec (dd : DwarfData) (arg : List Char) : Option Nat :=
  if arg.head? = some '*' then parse_address (arg.drop 1)
  else
    match from_str_radix decDigit 10 (2 ^ 64) arg with
    | some line_number => dd.get_addr_for_line line_number
    | none => dd.get_addr_for_function arg

/-- The commands `Debugger::run` dispatches. -/
inductive DebuggerCommand
  | Run
  | Continue
  | BackTrace
  | BreakPoint (arg : List Char)
  | Quit

/-- Session state: the recorded breakpoint addresses (`breaks`) and the
optional inferior, reduced to its breakpoint table. -/
structure SessState where
  breaks : List Nat
  inferior : Option (Nat → Option Nat)

/-- The outcomes of the callee operations one `Debugger::run` iteration can
invoke, supplied by the environment: `Inferior::new` (`none` = spawn
failure), `Inferior::cont`, `print_stop`, `print_backtrace`, `kill`, and
the `write_byte` that patches a new breakpoint into a stopped inferior. -/
structure SessEnv where
  newResult : Option (Nat → Option Nat)
  contResult : Res Status
  printStopResult : Except Nat Unit
  backtraceResult : Res Unit
  killResult : Except Nat Status
  writeByteResult : Except Nat Nat

/-- One iteration of the `Debugger::run` loop ends by looping (`next`),
aborting the whole process (an `unwrap`/`expect` of an `Err`, or a
propagated abort) or returning (`quit`). -/
inductive SessOutcome
  | next (st : SessState)
  | panic
  | quit

/-- The status-reporting tail the `Run` and `Continue` arms share
(debugger.rs lines 73-88 and 94-109): `Exited`/`Signaled` drop the
inferior, `Stopped` prints the stop location and `unwrap`s the result. -/
def reportStatus (env : SessEnv) (st : SessState) (bpm : Nat → Option Nat)
    (status : Status) : SessOutcome :=
  match status with
  | .Exited _ => .next { st with inferior := none }
  | .Signaled _ => .next { st with inferior := none }
  | .Stopped _ _ =>
      match env.printStopResult with
      | .error _ => .panic
      | .ok _ => .next { st with inferior := some bpm }

/-- The spawn-and-first-continue part of the `Run` arm (debugger.rs lines
67-90): on spawn failure report `Error starting subprocess` and keep
looping with the state as it is; on success the first `cont()` result is
`unwrap`ped. -/
def runSpawn (env : SessEnv) (st : SessState) : SessOutcome :=
  match env.newResult with
  | none => .next st
  | some bpm =>
      match env.contResult with
      | .err _ => .panic
      | .panic => .panic
      | .ok status => reportStatus env { st with inferior := some bpm } bpm status

/-- One iteration of `Debugger::run` (debugger.rs lines 57-168): dispatch
one command. An `unwrap`/`expect` of an `Err` aborts the session; the
recoverable reports (`Error starting subprocess`, `No inferior process to
continue/backtrace`, an unresolvable breakpoint spec) just loop. -/
def sessionStep (env : SessEnv) (dd : DwarfData) (st : SessState) :
    DebuggerCommand → SessOutcome
  | .Run =>
      match st.inferior with
      | some _ =>
          match env.killResult with
          | .error _ => .panic
          | .ok _ => runSpawn env st
      | none => runSpawn env st
  | .Continue =>
      match st.inferior with
      | none => .next st
      | some bpm =>
          match env.contResult with
          | .err _ => .panic
          | .panic => .panic
          | .ok status => reportStatus env st bpm status
  | .BackTrace =>
      match st.inferior with
      | none => .next st
      | some _ =>
          match env.backtraceResult with
          | .ok _ => .next st
          | .err _ => .panic
          | .panic => .panic
  | .BreakPoint arg =>
      match resolveBreakSpec dd arg with
      | none => .next st
      | some addr =>
          let breaks' := st.breaks ++ [addr]
          match st.inferior with
          | none => .next { st with breaks := breaks' }
          | some bpm =>
              match env.writeByteResult with
              | .error _ => .panic
              | .ok orig_byte =>
                  .next { breaks := breaks',
                          inferior := some (bpInsert bpm addr orig_byte) }
  | .Quit =>
      match st.inferior with
      | none => .quit
      | some _ =>
          match env.killResult with
          | .error _ => .panic
          | .ok _ => .quit

/-! ### Arithmetic facts about the word/byte manipulation -/

theorem u64sub1_eq (x : Nat) (h1 : 1 ≤ x) (h2 : x < 2 ^ 64) : u64sub1 x = x - 1 := by
  unfold u64sub1
  norm_num
  omega

/-- A number below `2^n` has no bits at positions `n` and above. -/
theorem testBit_high_false (x n i : Nat) (hx : x < 2 ^ n) (hi : n ≤ i) :
    x.testBit i = false := by
  apply Nat.testBit_lt_two_pow
  exact Nat.lt_of_lt_of_le hx (Nat.pow_le_pow_right (by norm_num) hi)

theorem align_addr_to_word_eq (addr : Nat) (h : addr < 2 ^ 64) :
    align_addr_to_word addr = addr / 8 * 8 := by
  have hmask : (2 ^ 64 - 8 : Nat) = (2 ^ 61 - 1) <<< 3 := by
    rw [Nat.shiftLeft_eq]; norm_num
  have hdiv : addr / 8 * 8 = (addr >>> 3) <<< 3 := by
    rw [Nat.shiftRight_eq_div_pow, Nat.shiftLeft_eq]
  rw [align_addr_to_word, hmask, hdiv]
  apply Nat.eq_of_testBit_eq
  intro i
  simp only [Nat.testBit_and, Nat.testBit_shiftLeft, Nat.testBit_shiftRight,
    Nat.testBit_two_pow_sub_one]
  rcases Nat.lt_or_ge i 3 with h3 | h3
  · have h3' : ¬ i ≥ 3 := by omega
    simp [h3']
  · rcases Nat.lt_or_ge i 64 with h64 | h64
    · have he : 3 + (i - 3) = i := by omega
      have hd : i - 3 < 61 := by omega
      simp [h3, hd, he, Bool.and_comm]
    · have hb : addr.testBit i = false := testBit_high_false addr 64 i h h64
      have hb' : addr.testBit (3 + (i - 3)) = false := by
        have he : 3 + (i - 3) = i := by omega
        rw [he, hb]
      have hd : ¬ i - 3 < 61 := by omega
      simp [hb', hd]

theorem align_addr_to_word_le (addr : Nat) : align_addr_to_word addr ≤ addr :=
  Nat.and_le_left

theorem byte_offset_eq (addr : Nat) (h : addr < 2 ^ 64) :
    addr - align_addr_to_word addr = addr % 8 := by
  rw [align_addr_to_word_eq addr h]; omega

theorem byteAt_eq_div_mod (w i : Nat) : byteAt w i = w / 2 ^ (8 * i) % 256 := by
  have hff : (0xff : Nat) = 2 ^ 8 - 1 := by norm_num
  rw [byteAt, hff, Nat.and_pow_two_sub_one_eq_mod, Nat.shiftRight_eq_div_pow]

theorem byteAt_lt (w i : Nat) : byteAt w i < 256 := by
  rw [byteAt_eq_div_mod]
  exact Nat.mod_lt _ (by norm_num)

theorem readWord_lt (m : Mem) (a : Nat) (h : MemWF m) : readWord m a < 2 ^ 64 := by
  have h0 := h a; have h1 := h (a + 1); have h2 := h (a + 2); have h3 := h (a + 3)
  have h4 := h (a + 4); have h5 := h (a + 5); have h6 := h (a + 6); have h7 := h (a + 7)
  unfold readWord
  norm_num
  omega

theorem byteAt_readWord (m : Mem) (a : Nat) (h : MemWF m) (i : Nat) (hi : i < 8) :
    byteAt (readWord m a) i = m (a + i) := by
  have h0 := h a; have h1 := h (a + 1); have h2 := h (a + 2); have h3 := h (a + 3)
  have h4 := h (a + 4); have h5 := h (a + 5); have h6 := h (a + 6); have h7 := h (a + 7)
  rw [byteAt_eq_div_mod]
  interval_cases i <;> simp only [readWord] <;> norm_num <;> omega

/-- The merged word of `write_byte`: byte `off` becomes `val`, every other
byte of the word is untouched. -/
theorem byteAt_merge (word val off j : Nat) (hv : val < 256)
    (hoff : off < 8) (hj : j < 8) :
    byteAt ((word &&& ((2 ^ 64 - 1) ^^^ (0xff <<< (8 * off)))) ||| (val <<< (8 * off))) j
      = if j = off then val else byteAt word j := by
  have hff : (0xff : Nat) = 2 ^ 8 - 1 := by norm_num
  rcases Decidable.em (j = off) with hjo | hjo
  · subst hjo
    simp only [if_pos rfl]
    apply Nat.eq_of_testBit_eq
    intro i
    simp only [byteAt, hff, Nat.testBit_and, Nat.testBit_or, Nat.testBit_xor,
      Nat.testBit_shiftLeft, Nat.testBit_shiftRight, Nat.testBit_two_pow_sub_one]
    rcases Nat.lt_or_ge i 8 with hi | hi
    · have hk64 : 8 * j + i < 64 := by omega
      have hge : 8 * j + i ≥ 8 * j := by omega
      have hlt : 8 * j + i - 8 * j < 8 := by omega
      have he : 8 * j + i - 8 * j = i := by omega
      simp [hk64, hge, hlt, he, hi]
    · have hvb : val.testBit i = false := testBit_high_false val 8 i (by omega) hi
      have hi' : ¬ i < 8 := by omega
      simp [hi', hvb]
  · rw [if_neg hjo]
    apply Nat.eq_of_testBit_eq
    intro i
    simp only [byteAt, hff, Nat.testBit_and, Nat.testBit_or, Nat.testBit_xor,
      Nat.testBit_shiftLeft, Nat.testBit_shiftRight, Nat.testBit_two_pow_sub_one]
    rcases Nat.lt_or_ge i 8 with hi | hi
    · have hk64 : 8 * j + i < 64 := by omega
      have hnot : ¬ (8 * j + i ≥ 8 * off ∧ 8 * j + i - 8 * off < 8) := by
        intro hc
        exact hjo (by omega)
      rcases Nat.lt_or_ge (8 * j + i) (8 * off) with hlow | hhigh
      · have hge : ¬ 8 * j + i ≥ 8 * off := by omega
        simp [hk64, hge]
      · have hlt : ¬ 8 * j + i - 8 * off < 8 := fun hc => hnot ⟨hhigh, hc⟩
        have hvb : val.testBit (8 * j + i - 8 * off) = false :=
          testBit_high_false val 8 _ (by omega) (by omega)
        simp [hk64, hhigh, hlt, hvb]
    · have hi' : ¬ i < 8 := by omega
      simp [hi']

/-- Full characterisation of `write_byte`: it returns the byte that was at
`addr` before the write, and the new memory agrees with the old one
everywhere except at `addr`, which now holds `val`. -/
theorem write_byte_spec (m : Mem) (addr val : Nat) (hwf : MemWF m)
    (haddr : addr < 2 ^ 64) (hval : val < 256) :
    (write_byte m addr val).1 = m addr ∧
      ∀ a, (write_byte m addr val).2 a = if a = addr then val else m a := by
  have halign := align_addr_to_word_eq addr haddr
  have hoffeq := byte_offset_eq addr haddr
  have hoff : addr - align_addr_to_word addr < 8 := by omega
  have hsum : align_addr_to_word addr + (addr - align_addr_to_word addr) = addr := by
    omega
  constructor
  · show (readWord m (align_addr_to_word addr) >>> (8 * (addr - align_addr_to_word addr)))
        &&& 0xff = m addr
    have := byteAt_readWord m (align_addr_to_word addr) hwf
      (addr - align_addr_to_word addr) hoff
    rw [hsum] at this
    exact this
  · intro a
    show writeWord m (align_addr_to_word addr) _ a = _
    rw [writeWord]
    rcases Decidable.em (align_addr_to_word addr ≤ a ∧ a < align_addr_to_word addr + 8)
      with hin | hout
    · rw [if_pos hin]
      have hja : a - align_addr_to_word addr < 8 := by omega
      rw [byteAt_merge _ val _ _ hval hoff hja]
      rcases Decidable.em (a = addr) with haa | haa
      · subst haa
        rw [if_pos rfl, if_pos rfl]
      · rw [if_neg (fun hc => haa (by omega)), if_neg haa]
        have := byteAt_readWord m (align_addr_to_word addr) hwf (a - align_addr_to_word addr) hja
        rw [this]
        congr 1
        omega
    · rw [if_neg hout]
      rw [if_neg (fun hc : a = addr => hout (by subst hc; omega))]

/-- `write_byte` keeps memory well-formed. -/
theorem write_byte_wf (m : Mem) (addr val : Nat) (hwf : MemWF m) :
    MemWF (write_byte m addr val).2 := by
  intro a
  show writeWord m (align_addr_to_word addr) _ a < 256
  rw [writeWord]
  split
  · exact byteAt_lt _ _
  · exact hwf a

/-- The displaced byte `write_byte` returns is a byte. -/
theorem write_byte_fst_lt (m : Mem) (addr val : Nat) :
    (write_byte m addr val).1 < 256 := by
  show (readWord m (align_addr_to_word addr) >>> (8 * (addr - align_addr_to_word addr)))
      &&& 0xff < 256
  exact Nat.lt_of_le_of_lt Nat.and_le_right (by norm_num)


/-! ## Claim theorems -/

/-- **C3** (confirmed): for every byte address `addr` and byte value `val`,
`write_byte` rounds `addr` down to the enclosing 8-byte word, merges `val`
into the right byte position of that word, leaves every other byte of
memory (in particular the other 7 bytes of the word) unchanged, and returns
the byte that was at `addr` immediately before the write. -/
theorem write_byte_claim (m : Mem) (addr val : Nat) (hwf : MemWF m)
    (haddr : addr < 2 ^ 64) (hval : val < 256) :
    align_addr_to_word addr = addr - addr % 8
    ∧ (write_byte m addr val).1 = m addr
    ∧ (write_byte m addr val).2 addr = val
    ∧ (∀ a, a ≠ addr → (write_byte m addr val).2 a = m a) := by
  obtain ⟨h1, h2⟩ := write_byte_spec m addr val hwf haddr hval
  refine ⟨?_, h1, ?_, ?_⟩
  · rw [align_addr_to_word_eq addr haddr]; omega
  · rw [h2 addr]; simp
  · intro a ha; rw [h2 a]; simp [ha]

/-- Witness for C3: a concrete memory, address and value. -/
theorem write_byte_claim_witness :
    (write_byte (fun a => a % 11) 12345 77).1 = 12345 % 11
    ∧ (write_byte (fun a => a % 11) 12345 77).2 12345 = 77 := by
  have h := write_byte_claim (fun a => a % 11) 12345 77
    (fun a => Nat.lt_of_lt_of_le (Nat.mod_lt a (by norm_num))
      (by norm_num : (11 : Nat) ≤ 256))
    (by norm_num) (by norm_num)
  exact ⟨h.2.1, h.2.2.1⟩

/-- **C9** (confirmed): `wait` decodes a raw OS wait status into exactly one
of `Exited(code)`, `Signaled(signal)` or `Stopped(signal, program counter)`;
any other raw wait status hits the fatal `panic!` arm — the decode aborts
exactly on the unclassifiable raw statuses and never returns one of them as
a normal decoded status — while a plain `waitpid` failure is an `Err`, not
an abort. -/
theorem wait_decode_claim (st : ProcState) (pid : Nat) (code : Int)
    (sig : Signal) (cd : Bool) (raw : WaitStatus) (e : Nat) :
    waitDecode st (.ok (.exited pid code)) = .ok (.Exited code)
    ∧ waitDecode st (.ok (.signaled pid sig cd)) = .ok (.Signaled sig)
    ∧ waitDecode st (.ok (.stopped pid sig)) = .ok (.Stopped sig st.regs.rip)
    ∧ (waitDecode st (.ok raw) = .panic ↔ classifiable raw = false)
    ∧ waitDecode st (.error e) = .err e := by
  refine ⟨rfl, rfl, rfl, ?_, rfl⟩
  cases raw <;> simp [waitDecode, classifiable]

/-- **C10** (confirmed): `Inferior::cont` never touches the breakpoint
table — on every path (early return with a status or an error after the
single-step, or full step-over plus final resume, or no breakpoint at all)
the returned inferior's `bp_map` is exactly the one the call started with,
so the table stays valid for subsequent continues and runs. -/
theorem cont_bp_map_frame (env : Env) (inf : Inferior) (st : ProcState) :
    ((contFn env inf st).2.1).bp_map = inf.bp_map := by
  unfold contFn
  split <;> rfl

/-- **C7** (confirmed): when symbol resolution succeeds for the current
program counter, the unwinder's walk terminates successfully exactly on the
resolved function name `main` — a `main` frame finishes the walk, any other
resolved frame continues with the next return address read from memory at
`frame_base + 8` and the caller's frame base read from memory at
`frame_base` — and when `main` is never resolved the walk never finishes
successfully, however far it is unrolled: it carries no maximum-frame-count
bound. -/
theorem backtrace_walk_claim :
    (∀ dd mem fuel rip rbp acc l,
      dd.get_function_from_addr rip = some "main" →
      dd.get_line_from_addr rip = some l →
      btLoop dd mem (fuel + 1) rip rbp acc = .done (acc ++ [("main", l)]))
    ∧ (∀ dd mem fuel rip rbp acc f l,
      dd.get_function_from_addr rip = some f →
      dd.get_line_from_addr rip = some l → f ≠ "main" →
      btLoop dd mem (fuel + 1) rip rbp acc
        = btLoop dd mem fuel (readWord mem (rbp + 8)) (readWord mem rbp)
            (acc ++ [(f, l)]))
    ∧ (∀ dd mem,
      (∀ a f, dd.get_function_from_addr a = some f → f ≠ "main") →
      ∀ fuel rip rbp acc frames, btLoop dd mem fuel rip rbp acc ≠ .done frames) := by
  refine ⟨?_, ?_, ?_⟩
  · intro dd mem fuel rip rbp acc l hf hl
    simp [btLoop, hf, hl]
  · intro dd mem fuel rip rbp acc f l hf hl hne
    simp [btLoop, hf, hl, hne]
  · intro dd mem hno fuel
    induction fuel with
    | zero =>
        intro rip rbp acc frames h
        simp [btLoop] at h
    | succ n ih =>
        intro rip rbp acc frames h
        rw [btLoop] at h
        cases hf : dd.get_function_from_addr rip with
        | none => rw [hf] at h; exact BtOut.noConfusion h
        | some f =>
            rw [hf] at h
            cases hl : dd.get_line_from_addr rip with
            | none => rw [hl] at h; exact BtOut.noConfusion h
            | some l =>
                rw [hl] at h
                dsimp only at h
                rw [if_neg (hno rip f hf)] at h
                exact ih _ _ _ _ h

/-- **C8** (confirmed): a `breakpoint(spec)` command resolves its spec by
trying, in priority order: raw hex address when the `*` marker is present,
then decimal line number, then function name — a successful decimal parse
commits to the line-number lookup even when that lookup fails — and an
unresolvable spec reports an error and leaves the Breakpoint Table
(contents and size) unchanged. -/
theorem breakpoint_resolution_claim :
    (∀ dd rest, resolveBreakSpec dd ('*' :: rest) = parse_address rest)
    ∧ (∀ dd arg n, arg.head? ≠ some '*' →
      from_str_radix decDigit 10 (2 ^ 64) arg = some n →
      resolveBreakSpec dd arg = dd.get_addr_for_line n)
    ∧ (∀ dd arg, arg.head? ≠ some '*' →
      from_str_radix decDigit 10 (2 ^ 64) arg = none →
      resolveBreakSpec dd arg = dd.get_addr_for_function arg)
    ∧ (∀ env dd st arg, resolveBreakSpec dd arg = none →
      sessionStep env dd st (.BreakPoint arg) = .next st) := by
  refine ⟨?_, ?_, ?_, ?_⟩
  · intro dd rest
    simp [resolveBreakSpec]
  · intro dd arg n hstar hparse
    rw [resolveBreakSpec, if_neg hstar, hparse]
  · intro dd arg hstar hparse
    rw [resolveBreakSpec, if_neg hstar, hparse]
  · intro env dd st arg hres
    rw [sessionStep, hres]

/-- **C5** counterexample: with an inferior present and `cont` failing with
a `ptrace` error (errno 3), the `continue` command does not merely abort and
loop — the `expect` aborts the whole session (`panic`), so the Session does
not continue its command loop. -/
theorem session_error_counterexample :
    sessionStep
      { newResult := none, contResult := .err 3, printStopResult := .ok (),
        backtraceResult := .ok (), killResult := .ok (.Exited 0),
        writeByteResult := .ok 0 }
      emptyDwarf { breaks := [], inferior := some fun _ => none } .Continue
      = .panic
    ∧ ∀ s, sessionStep
      { newResult := none, contResult := .err 3, printStopResult := .ok (),
        backtraceResult := .ok (), killResult := .ok (.Exited 0),
        writeByteResult := .ok 0 }
      emptyDwarf { breaks := [], inferior := some fun _ => none } .Continue
      ≠ .next s := by
  refine ⟨rfl, ?_⟩
  intro s h
  exact SessOutcome.noConfusion h

/-- **C5** (amended): errors are *not* recovered at the command boundary —
a `ptrace`/IO failure during `continue`, `backtrace`, breakpoint patching,
the `kill` of a previous inferior on `run`, or the stop-location print
hits an `unwrap`/`expect` and aborts the whole session; the conditions that
are merely reported before the loop continues are spawn failure on `run`,
a missing inferior on `continue`/`backtrace`, and an unresolvable
breakpoint spec. -/
theorem session_error_claim :
    (∀ env dd st bpm e, st.inferior = some bpm → env.contResult = .err e →
      sessionStep env dd st .Continue = .panic)
    ∧ (∀ env dd st bpm e, st.inferior = some bpm → env.backtraceResult = .err e →
      sessionStep env dd st .BackTrace = .panic)
    ∧ (∀ env dd st bpm arg addr e, st.inferior = some bpm →
      resolveBreakSpec dd arg = some addr → env.writeByteResult = .error e →
      sessionStep env dd st (.BreakPoint arg) = .panic)
    ∧ (∀ env dd st, st.inferior = none → env.newResult = none →
      sessionStep env dd st .Run = .next st)
    ∧ (∀ env dd st, st.inferior = none → sessionStep env dd st .Continue = .next st)
    ∧ (∀ env dd st, st.inferior = none →
      sessionStep env dd st .BackTrace = .next st)
    ∧ (∀ env dd st bpm e, st.inferior = some bpm → env.killResult = .error e →
      sessionStep env dd st .Run = .panic)
    ∧ (∀ env dd st bpm sig rip e, st.inferior = some bpm →
      env.contResult = .ok (.Stopped sig rip) → env.printStopResult = .error e →
      sessionStep env dd st .Continue = .panic) := by
  refine ⟨?_, ?_, ?_, ?_, ?_, ?_, ?_, ?_⟩
  · intro env dd st bpm e hi hc
    simp [sessionStep, hi, hc]
  · intro env dd st bpm e hi hb
    simp [sessionStep, hi, hb]
  · intro env dd st bpm arg addr e hi hres hw
    simp [sessionStep, hi, hres, hw]
  · intro env dd st hi hn
    simp [sessionStep, runSpawn, hi, hn]
  · intro env dd st hi
    simp [sessionStep, hi]
  · intro env dd st hi
    simp [sessionStep, hi]
  · intro env dd st bpm e hi hk
    simp [sessionStep, hi, hk]
  · intro env dd st bpm sig rip e hi hc hp
    simp [sessionStep, reportStatus, hi, hc, hp]

/-- **C6** counterexample: with a resolver that knows no symbol, the
backtrace walk aborts (an `unwrap` of `None`) instead of failing with a
non-fatal "symbol not found" error, and the session's `backtrace` command
propagates the abort, killing the session. -/
theorem backtrace_panic_counterexample :
    btLoop emptyDwarf (fun _ => 0) 5 0 0 [] = .panicked []
    ∧ sessionStep
      { newResult := none, contResult := .ok (.Exited 0),
        printStopResult := .ok (), backtraceResult := .panic,
        killResult := .ok (.Exited 0), writeByteResult := .ok 0 }
      emptyDwarf { breaks := [], inferior := some fun _ => none } .BackTrace
      = .panic := ⟨rfl, rfl⟩

/-- **C6** (amended): if symbol resolution fails for an address in the
frame-pointer walk, the unwinder aborts the whole session (an `unwrap` of
`None`), not with a recoverable "symbol not found" error; the frames
resolved before the failure have already been printed (they are emitted
one at a time), but no frame list or error value reaches the caller. -/
theorem backtrace_panic_claim :
    (∀ dd mem fuel rip rbp acc, dd.get_function_from_addr rip = none →
      btLoop dd mem (fuel + 1) rip rbp acc = .panicked acc)
    ∧ (∀ dd mem fuel rip rbp acc f, dd.get_function_from_addr rip = some f →
      dd.get_line_from_addr rip = none →
      btLoop dd mem (fuel + 1) rip rbp acc = .panicked acc)
    ∧ (∀ env dd st bpm, st.inferior = some bpm → env.backtraceResult = .panic →
      sessionStep env dd st .BackTrace = .panic) := by
  refine ⟨?_, ?_, ?_⟩
  · intro dd mem fuel rip rbp acc hf
    simp [btLoop, hf]
  · intro dd mem fuel rip rbp acc f hf hl
    simp [btLoop, hf, hl]
  · intro env dd st bpm hi hb
    simp [sessionStep, hi, hb]

/-- Full effect of the installation loop of `Inferior::new`, for distinct
addresses: every listed address ends with `0xCC` in memory and its original
byte in the table; unlisted addresses and table entries are untouched;
memory stays well-formed. -/
theorem installBreaks_spec (breaks : List Nat) (inf : Inferior) (mem : Mem)
    (hwf : MemWF mem) (hnd : breaks.Nodup) (hlt : ∀ A ∈ breaks, A < 2 ^ 64) :
    (∀ A ∈ breaks,
        (installBreaks breaks inf mem).2 A = 0xcc
        ∧ (installBreaks breaks inf mem).1.bp_map A = some (mem A))
    ∧ (∀ a, a ∉ breaks → (installBreaks breaks inf mem).2 a = mem a)
    ∧ (∀ k, k ∉ breaks → (installBreaks breaks inf mem).1.bp_map k = inf.bp_map k)
    ∧ MemWF (installBreaks breaks inf mem).2 := by
  induction breaks generalizing inf mem with
  | nil =>
      exact ⟨fun A hA => absurd hA (List.not_mem_nil A),
        fun a _ => rfl, fun k _ => rfl, hwf⟩
  | cons b rest ih =>
      have hb64 : b < 2 ^ 64 := hlt b (List.mem_cons_self b rest)
      obtain ⟨hfst, hmem⟩ := write_byte_spec mem b 0xcc hwf hb64 (by norm_num)
      have hwf' : MemWF (write_byte mem b 0xcc).2 := write_byte_wf mem b 0xcc hwf
      have hbnot : b ∉ rest := (List.nodup_cons.mp hnd).1
      have hnd' : rest.Nodup := (List.nodup_cons.mp hnd).2
      have hlt' : ∀ A ∈ rest, A < 2 ^ 64 := fun A hA => hlt A (List.mem_cons_of_mem b hA)
      obtain ⟨ihin, ihmem, ihbp, ihwf⟩ :=
        ih { bp_map := bpInsert inf.bp_map b (write_byte mem b 0xcc).1 }
          (write_byte mem b 0xcc).2 hwf' hnd' hlt'
      rw [installBreaks]
      refine ⟨?_, ?_, ?_, ihwf⟩
      · intro A hA
        rcases List.mem_cons.mp hA with hab | har
        · subst hab
          constructor
          · rw [ihmem A hbnot, hmem A, if_pos rfl]
          · rw [ihbp A hbnot]
            simp [bpInsert, hfst]
        · have hAb : A ≠ b := fun hc => hbnot (hc ▸ har)
          refine ⟨(ihin A har).1, ?_⟩
          rw [(ihin A har).2, hmem A, if_neg hAb]
      · intro a ha
        have hab : a ≠ b := fun hc => ha (hc ▸ List.mem_cons_self b rest)
        have har : a ∉ rest := fun hc => ha (List.mem_cons_of_mem b hc)
        rw [ihmem a har, hmem a, if_neg hab]
      · intro k hk
        have hkb : k ≠ b := fun hc => hk (hc ▸ List.mem_cons_self b rest)
        have hkr : k ∉ rest := fun hc => hk (List.mem_cons_of_mem b hc)
        rw [ihbp k hkr]
        simp [bpInsert, hkb]

/-- **C4** (amended): for a run recording pairwise-distinct breakpoint
addresses, after a successful `Inferior::new` target memory at each
recorded address holds the trap opcode `0xCC` and the Breakpoint Table's
entry for it equals the byte present immediately before patching (not the
trap byte). The distinctness amendment is forced: recording the same
address twice stores the trap byte itself, see the counterexample. -/
theorem run_installs_breakpoints (pid : Nat) (st : ProcState) (breaks : List Nat)
    (hwf : MemWF st.mem) (hnd : breaks.Nodup) (hlt : ∀ A ∈ breaks, A < 2 ^ 64) :
    ∃ inf st',
      inferiorNew true (.ok (.stopped pid .SIGTRAP)) st breaks = .made inf st'
      ∧ ∀ A ∈ breaks, st'.mem A = 0xcc ∧ inf.bp_map A = some (st.mem A) := by
  obtain ⟨hin, _, _, _⟩ :=
    installBreaks_spec breaks { bp_map := fun _ => none } st.mem hwf hnd hlt
  exact ⟨_, _, rfl, hin⟩

/-- Witness for C4 at two distinct concrete breakpoints over a `0x90`-filled
memory. -/
theorem run_installs_breakpoints_witness :
    ∃ inf st',
      inferiorNew true (.ok (.stopped 1 .SIGTRAP))
        { regs := { rip := 0x1001, rbp := 0 }, mem := fun _ => 0x90 } [64, 72]
        = .made inf st'
      ∧ ∀ A ∈ [64, 72], st'.mem A = 0xcc ∧ inf.bp_map A = some 0x90 :=
  run_installs_breakpoints 1
    { regs := { rip := 0x1001, rbp := 0 }, mem := fun _ => 0x90 } [64, 72]
    (fun _ => by norm_num) (by decide)
    (fun A hA => by fin_cases hA <;> norm_num)

/-- **C4** counterexample: recording the same address twice makes the second
patch read back the already-written trap byte, so after the run the table's
entry for address 64 is `0xCC` — not `0x90`, the byte of the unmodified
memory image. -/
theorem duplicate_breakpoint_counterexample :
    ∃ inf st',
      inferiorNew true (.ok (.stopped 1 .SIGTRAP))
        { regs := { rip := 0x1001, rbp := 0 }, mem := fun _ => 0x90 } [64, 64]
        = .made inf st'
      ∧ inf.bp_map 64 = some 0xcc
      ∧ (0xcc : Nat) ≠ 0x90 := by
  refine ⟨_, _, rfl, ?_, by norm_num⟩
  rfl

/-- Unfolding of the step-over block when `bp_map` hits `rip - 1`: restore,
rewind, single-step, then branch on the decoded wait of the step. -/
theorem contStepOver_hit (env : Env) (inf : Inferior) (st : ProcState) (orig : Nat)
    (h1 : 1 ≤ st.regs.rip) (h2 : st.regs.rip < 2 ^ 64)
    (hbp : inf.bp_map (st.regs.rip - 1) = some orig) :
    contStepOver env inf st
      = match waitDecode (env.stepEffect (stepEntry st (st.regs.rip - 1) orig))
          env.stepWaitRaw with
        | .ok (.Stopped .SIGTRAP _) =>
            .proceed (rearmed (env.stepEffect (stepEntry st (st.regs.rip - 1) orig))
              (st.regs.rip - 1))
        | r => .early r (env.stepEffect (stepEntry st (st.regs.rip - 1) orig)) := by
  have hsub : u64sub1 st.regs.rip = st.regs.rip - 1 := u64sub1_eq _ h1 h2
  simp only [contStepOver]
  rw [hsub, hbp]
  rfl

/-- **C1** (amended): on `cont` with the program counter one past a recorded
breakpoint address `A = rip - 1`, the engine first restores the original
byte at `A` (all other bytes untouched), rewinds the program counter to `A`,
and issues exactly one single-step; if the step's wait decodes to anything
other than `Stopped(SIGTRAP, _)` — `Exited`, `Signaled`, a stop by a
different signal, an error, or the fatal-status abort — that outcome is
returned immediately, with no re-arming and no final resume; only on
`Stopped(SIGTRAP, _)` is the trap byte `0xCC` re-written at `A` before the
final resume-until-stop, whose decoded outcome is returned. The amendment —
a `Stopped` with a non-`SIGTRAP` signal (or an error) also returns
immediately without re-arming, not only `Exited`/`Signaled` — is forced by
the counterexample. -/
theorem cont_step_over_claim (env : Env) (inf : Inferior) (st : ProcState)
    (orig : Nat) (hwf : MemWF st.mem) (h1 : 1 ≤ st.regs.rip)
    (h2 : st.regs.rip < 2 ^ 64) (horig : orig < 256)
    (hbp : inf.bp_map (st.regs.rip - 1) = some orig)
    (hpres : ∀ s, MemWF s.mem → MemWF (env.stepEffect s).mem) :
    (stepEntry st (st.regs.rip - 1) orig).mem (st.regs.rip - 1) = orig
    ∧ (∀ a, a ≠ st.regs.rip - 1 →
        (stepEntry st (st.regs.rip - 1) orig).mem a = st.mem a)
    ∧ (stepEntry st (st.regs.rip - 1) orig).regs.rip = st.regs.rip - 1
    ∧ (∀ r, waitDecode (env.stepEffect (stepEntry st (st.regs.rip - 1) orig))
          env.stepWaitRaw = r →
        (∀ pc, r ≠ .ok (.Stopped .SIGTRAP pc)) →
        contFn env inf st
          = (r, inf, env.stepEffect (stepEntry st (st.regs.rip - 1) orig)))
    ∧ (∀ pc, waitDecode (env.stepEffect (stepEntry st (st.regs.rip - 1) orig))
          env.stepWaitRaw = .ok (.Stopped .SIGTRAP pc) →
        (rearmed (env.stepEffect (stepEntry st (st.regs.rip - 1) orig))
            (st.regs.rip - 1)).mem (st.regs.rip - 1) = 0xcc
        ∧ contFn env inf st
          = ((resumeRun env (rearmed (env.stepEffect (stepEntry st (st.regs.rip - 1) orig))
                (st.regs.rip - 1))).1, inf,
             (resumeRun env (rearmed (env.stepEffect (stepEntry st (st.regs.rip - 1) orig))
                (st.regs.rip - 1))).2)) := by
  have hA : st.regs.rip - 1 < 2 ^ 64 := by omega
  obtain ⟨hfst, hmem⟩ := write_byte_spec st.mem (st.regs.rip - 1) orig hwf hA horig
  have hwf2 : MemWF (stepEntry st (st.regs.rip - 1) orig).mem :=
    write_byte_wf st.mem (st.regs.rip - 1) orig hwf
  have hwf3 : MemWF (env.stepEffect (stepEntry st (st.regs.rip - 1) orig)).mem :=
    hpres _ hwf2
  obtain ⟨hccfst, hccmem⟩ :=
    write_byte_spec (env.stepEffect (stepEntry st (st.regs.rip - 1) orig)).mem
      (st.regs.rip - 1) 0xcc hwf3 hA (by norm_num)
  refine ⟨?_, ?_, rfl, ?_, ?_⟩
  · show (write_byte st.mem (st.regs.rip - 1) orig).2 (st.regs.rip - 1) = orig
    rw [hmem]; simp
  · intro a ha
    show (write_byte st.mem (st.regs.rip - 1) orig).2 a = st.mem a
    rw [hmem]; simp [ha]
  · intro r hr hnot
    simp only [contFn]
    rw [contStepOver_hit env inf st orig h1 h2 hbp, hr]
    rcases r with s | e | _
    · rcases s with ⟨sig, pc⟩ | c | sig
      · cases sig with
        | SIGTRAP => exact absurd rfl (hnot pc)
        | SIGSEGV => rfl
        | SIGINT => rfl
        | SIGKILL => rfl
        | otherSig n => rfl
      · rfl
      · rfl
    · rfl
    · rfl
  · intro pc htrap
    refine ⟨?_, ?_⟩
    · show (write_byte (env.stepEffect (stepEntry st (st.regs.rip - 1) orig)).mem
          (st.regs.rip - 1) 0xcc).2 (st.regs.rip - 1) = 0xcc
      rw [hccmem]; simp
    · simp only [contFn]
      rw [contStepOver_hit env inf st orig h1 h2 hbp, htrap]

/-- Witness for C1: the concrete environment `envTrapEx` over `infEx`/`stEx`
(breakpoint at `0x2000`, original byte `0x77`, program counter `0x2001`):
the state handed to the single-step holds the original byte at the
breakpoint address. -/
theorem cont_step_over_claim_witness :
    (stepEntry stEx 0x2000 0x77).mem 0x2000 = 0x77 :=
  (cont_step_over_claim envTrapEx infEx stEx 0x77
    (fun _ => by norm_num [stEx]) (by decide) (by decide) (by decide)
    (by decide) (fun s h => h)).1

/-- **C1** counterexample: the single-step's wait reports `Stopped(SIGSEGV)`
— neither `Exited` nor `Signaled` — yet `cont` returns it immediately: the
byte left at the breakpoint address is the original `0x90`, not the re-armed
trap `0xCC`, and the returned status is not the final resume's decode
(`Exited 0`) the claim prescribes. -/
theorem cont_step_over_counterexample :
    (contFn
      { stepEffect := id, stepWaitRaw := .ok (.stopped 1 .SIGSEGV),
        contEffect := id, contWaitRaw := .ok (.exited 1 0) }
      { bp_map := fun x => if x = 0x1000 then some 0x90 else none }
      { regs := { rip := 0x1001, rbp := 0 },
        mem := fun a => if a = 0x1000 then 0xcc else 0 }).1
      = .ok (.Stopped .SIGSEGV 0x1000)
    ∧ (contFn
      { stepEffect := id, stepWaitRaw := .ok (.stopped 1 .SIGSEGV),
        contEffect := id, contWaitRaw := .ok (.exited 1 0) }
      { bp_map := fun x => if x = 0x1000 then some 0x90 else none }
      { regs := { rip := 0x1001, rbp := 0 },
        mem := fun a => if a = 0x1000 then 0xcc else 0 }).2.2.mem 0x1000 = 0x90
    ∧ Res.ok (Status.Stopped .SIGSEGV 0x1000) ≠ .ok (.Exited 0)
    ∧ (0x90 : Nat) ≠ 0xcc := by
  refine ⟨by decide, by decide, by decide, by decide⟩

/-- **C2** (amended): for an installed breakpoint at `A = rip - 1`, when the
single-step of the step-over leaves the process stopped *by `SIGTRAP`*, the
trap byte `0xCC` is back at `A` in target memory before the final resume is
issued, and the table still maps `A` to the original byte — so a later pass
of execution through `A` traps again. The amendment — stopped by `SIGTRAP`,
not merely stopped — is forced by the counterexample. -/
theorem rearm_round_trip_claim (env : Env) (inf : Inferior) (st : ProcState)
    (orig pc : Nat) (hwf : MemWF st.mem) (h1 : 1 ≤ st.regs.rip)
    (h2 : st.regs.rip < 2 ^ 64)
    (hbp : inf.bp_map (st.regs.rip - 1) = some orig)
    (hpres : ∀ s, MemWF s.mem → MemWF (env.stepEffect s).mem)
    (htrap : waitDecode (env.stepEffect (stepEntry st (st.regs.rip - 1) orig))
        env.stepWaitRaw = .ok (.Stopped .SIGTRAP pc)) :
    ∃ st4, contStepOver env inf st = .proceed st4
      ∧ st4.mem (st.regs.rip - 1) = 0xcc
      ∧ inf.bp_map (st.regs.rip - 1) = some orig
      ∧ contFn env inf st = ((resumeRun env st4).1, inf, (resumeRun env st4).2) := by
  have hA : st.regs.rip - 1 < 2 ^ 64 := by omega
  have hwf2 : MemWF (stepEntry st (st.regs.rip - 1) orig).mem := by
    intro a
    exact write_byte_wf st.mem (st.regs.rip - 1) orig hwf a
  have hwf3 : MemWF (env.stepEffect (stepEntry st (st.regs.rip - 1) orig)).mem :=
    hpres _ hwf2
  obtain ⟨_, hccmem⟩ :=
    write_byte_spec (env.stepEffect (stepEntry st (st.regs.rip - 1) orig)).mem
      (st.regs.rip - 1) 0xcc hwf3 hA (by norm_num)
  refine ⟨rearmed (env.stepEffect (stepEntry st (st.regs.rip - 1) orig))
    (st.regs.rip - 1), ?_, ?_, hbp, ?_⟩
  · rw [contStepOver_hit env inf st orig h1 h2 hbp, htrap]
  · show (write_byte (env.stepEffect (stepEntry st (st.regs.rip - 1) orig)).mem
        (st.regs.rip - 1) 0xcc).2 (st.regs.rip - 1) = 0xcc
    rw [hccmem]; simp
  · simp only [contFn]
    rw [contStepOver_hit env inf st orig h1 h2 hbp, htrap]

/-- Witness for C2: `envTrapEx` over `infEx`/`stEx` — the step-over falls
through with the trap byte re-armed at `0x2000` and the table unchanged. -/
theorem rearm_round_trip_witness :
    ∃ st4, contStepOver envTrapEx infEx stEx = .proceed st4
      ∧ st4.mem 0x2000 = 0xcc
      ∧ infEx.bp_map 0x2000 = some 0x77
      ∧ contFn envTrapEx infEx stEx
        = ((resumeRun envTrapEx st4).1, infEx, (resumeRun envTrapEx st4).2) :=
  rearm_round_trip_claim envTrapEx infEx stEx 0x77 0x2000
    (fun _ => by norm_num [stEx]) (by decide) (by decide) (by decide)
    (fun s h => h) (by decide)

/-- **C2** counterexample: the single-step leaves the process stopped (by
`SIGSEGV`), yet after the step-over pass target memory at the breakpoint
address holds the displaced original byte `0x77`, not the trap opcode
`0xCC` — the breakpoint was not re-armed. -/
theorem rearm_round_trip_counterexample :
    (∃ r st3,
      contStepOver
        { stepEffect := id, stepWaitRaw := .ok (.stopped 2 .SIGSEGV),
          contEffect := id, contWaitRaw := .ok (.exited 2 0) }
        { bp_map := fun x => if x = 0x4000 then some 0x77 else none }
        { regs := { rip := 0x4001, rbp := 0 },
          mem := fun a => if a = 0x4000 then 0xcc else 0 } = .early r st3
      ∧ r = .ok (.Stopped .SIGSEGV 0x4000)
      ∧ st3.mem 0x4000 = 0x77)
    ∧ (0x77 : Nat) ≠ 0xcc := by
  exact ⟨⟨_, _, rfl, by decide, by decide⟩, by decide⟩

end Deet
